import Mathlib

/-!
Shallow embedding of `src/InputValidator.ts` from mannkostir/react-auth-form.

The validator is a mutable object bound to one input element.  We model the
mutable state as the structure `InputValidator` and each method as a function
from the state to a pair of an optional thrown error message and the state at
the moment the method returns (or at the moment the exception propagates).
`validate` additionally returns the list of argument lists passed to the
`onValidationFinish` callback, one element per invocation of the callback.
-/

/-- Mirrors `ILangObject = { EN: string; RU: string }`. -/
structure ILangObject where
  EN : String
  RU : String
deriving DecidableEq

/-- The two values of `validatorSettings.currentLanguage`. -/
inductive Lang where
  | EN
  | RU
deriving DecidableEq

/-- JS property access `o[this.validatorSettings.currentLanguage]` on an `ILangObject`. -/
def ILangObject.pick (o : ILangObject) : Lang → String
  | Lang.EN => o.EN
  | Lang.RU => o.RU

/-- Mirrors the `hasLength` field of `errorTextMessages` (three formatter functions). -/
structure HasLengthMessages where
  min : Nat → ILangObject
  max : Nat → ILangObject
  exact : Nat → ILangObject

/-- Mirrors `IErrorTextMessages`; the `isAlpha`/`isEmail` thunks are modelled by
their (constant) results. -/
structure IErrorTextMessages where
  hasLength : HasLengthMessages
  isAlpha : ILangObject
  isEmail : ILangObject

/-- The `errorTextMessages` constant of the source, with the template literals
spelled out as string concatenations. -/
def errorTextMessages : IErrorTextMessages :=
  { hasLength :=
      { min := fun minLength =>
          { EN := "Should be more than or equal to " ++ toString minLength ++ " symbols"
          , RU := "Количество символов должно быть больше или равно " ++ toString minLength }
      , max := fun maxLength =>
          { EN := "Should be no more than " ++ toString maxLength ++ " symbols"
          , RU := "Количество символов не должно превышать " ++ toString maxLength }
      , exact := fun exactLength =>
          { EN := "Should be exactly " ++ toString exactLength ++ " symbols"
          , RU := "Количество символов должно точно равняться " ++ toString exactLength } }
  , isAlpha := { EN := "Should contain only alphabetic letters", RU := "" }
  , isEmail := { EN := "Incorrect email address", RU := "Неверный адрес электронной почты" } }

/-- One element of `this.errors`: the object `{ checkName, message }` pushed by
`_addError`. -/
structure ErrorEntry where
  checkName : String
  message : String
deriving DecidableEq

/-- The `hasLength` rule configuration `{ exact, min, max }`.  The defaults are
all `0`; a missing numeric field behaves like `0` in both comparisons of the
source (`length < undefined` is false, `!!+undefined` is false), so `Nat` with
`0` for absent entries is a faithful model. -/
structure HasLengthRule where
  exact : Nat := 0
  min : Nat := 0
  max : Nat := 0
deriving DecidableEq

/-- Mirrors `IValidatorRules` after the constructor merge with the defaults. -/
structure IValidatorRules where
  hasLength : HasLengthRule := {}
  isAlpha : Bool := false
  isEmail : Bool := false
deriving DecidableEq

/-- The bound `HTMLInputElement`, reduced to the two fields the validator
touches: `value` (which may hold a non-string, modelled as `none`) and
`dataset.isValid`. -/
structure InputElement where
  value : Option String
  datasetIsValid : Option String := none
deriving DecidableEq

/-- The validator object state: `input` (possibly `null`), the merged rules,
the current language setting, and the mutable `errors` array. -/
structure InputValidator where
  input : Option InputElement
  validatorRules : IValidatorRules
  currentLanguage : Lang
  errors : List ErrorEntry
deriving DecidableEq

/-- A JavaScript value returned by a `customCheck` predicate; the source
compares the result against the literal `true` with `!==`. -/
inductive JSValue where
  | bool (b : Bool)
  | str (s : String)
  | num (n : Int)
  | undefined
  | null
deriving DecidableEq

/-- The message of the error thrown by every check when the guard
`!this.input || typeof this.input.value !== 'string'` fires. -/
def inputTypeErrorMsg : String := "Input value must be type of string"

/-- The message of the error thrown by `customCheck` for an empty check name. -/
def missingCheckNameMsg : String := "Name for validation check must be specified"

namespace InputValidator

/-- The current string value of the bound field: `none` exactly when the guard
`!this.input || typeof this.input.value !== 'string'` is true. -/
def stringValue (v : InputValidator) : Option String :=
  match v.input with
  | none => none
  | some inp => inp.value

/-- Getter `isValid`: `!this.errors.length`. -/
def isValid (v : InputValidator) : Bool :=
  v.errors.length == 0

/-- Getter `validationErrors`. -/
def validationErrors (v : InputValidator) : List ErrorEntry :=
  v.errors

/-- `_addError`: pushes `{ checkName, message }` onto `this.errors`.  Note that
it never removes a previous entry with the same name. -/
def addError (v : InputValidator) (checkName message : String) : InputValidator :=
  { v with errors := v.errors ++ [{ checkName := checkName, message := message }] }

/-- `_validateCheck`: keeps exactly the entries whose `checkName` differs. -/
def validateCheck (v : InputValidator) (checkName : String) : InputValidator :=
  { v with errors := v.errors.filter (fun e => e.checkName != checkName) }

/-- `hasLength()`.  The three branches mirror the source: the `min` comparison
is unguarded and reads the localized message table; the `max` and `exact`
branches are guarded by `!!+…` (non-zero) and use inline English template
literals. -/
def hasLength (v : InputValidator) : Option String × InputValidator :=
  match stringValue v with
  | none => (some inputTypeErrorMsg, v)
  | some s =>
    if s.length < v.validatorRules.hasLength.min then
      (none, addError v "hasLength"
        ((errorTextMessages.hasLength.min v.validatorRules.hasLength.min).pick v.currentLanguage))
    else if v.validatorRules.hasLength.max ≠ 0 ∧ s.length > v.validatorRules.hasLength.max then
      (none, addError v "hasLength"
        ("Should be no more than " ++ toString v.validatorRules.hasLength.max ++ " symbols"))
    else if v.validatorRules.hasLength.exact ≠ 0 ∧ s.length ≠ v.validatorRules.hasLength.exact then
      (none, addError v "hasLength"
        ("Should be exactly " ++ toString v.validatorRules.hasLength.exact ++ " symbols"))
    else
      (none, validateCheck v "hasLength")

/-- Character class of the regular expression `/^[a-z]*$/gi`: a latin letter in
either case (the `i` flag). -/
def isAlphaChar (c : Char) : Bool :=
  ('a' ≤ c && c ≤ 'z') || ('A' ≤ c && c ≤ 'Z')

/-- `/^[a-z]*$/gi.test(s)`: every character is a latin letter; the empty string
matches. -/
def alphaRegexTest (s : String) : Bool :=
  s.data.all isAlphaChar

/-- `isAlpha()`. -/
def isAlpha (v : InputValidator) : Option String × InputValidator :=
  match stringValue v with
  | none => (some inputTypeErrorMsg, v)
  | some s =>
    if alphaRegexTest s then
      (none, validateCheck v "isAlpha")
    else
      (none, addError v "isAlpha" "Should contain only alphabetic letters")

/-- The characters matched by `\s` in the source regular expression (the ASCII
whitespace characters; the Unicode space separators JS also includes do not
occur in any string this development evaluates on). -/
def jsWhitespaceChar (c : Char) : Bool :=
  c == ' ' || c == '\t' || c == '\n' || c == '\r' || c == '\x0b' || c == '\x0c'

/-- Character class `[^\s@]` of the email pattern. -/
def emailAtomChar (c : Char) : Bool :=
  !jsWhitespaceChar c && c != '@'

/-- `/^[^\s@]+@[^\s@]+\.[^\s@]+$/.test(s)`: the string decomposes as
`A ++ "@" ++ B ++ "." ++ C` with `A`, `B`, `C` nonempty strings of `[^\s@]`
characters.  Encoded by the position `i` of the literal `@` and the position
`j` of the literal `.`; every other position holds a `[^\s@]` character. -/
def emailRegexTest (s : String) : Bool :=
  (List.range s.data.length).any (fun i =>
    (List.range s.data.length).any (fun j =>
      s.data.getD i ' ' == '@' && s.data.getD j ' ' == '.' &&
      decide (1 ≤ i) && decide (i + 2 ≤ j) && decide (j + 2 ≤ s.data.length) &&
      (List.range s.data.length).all (fun k =>
        k == i || k == j || emailAtomChar (s.data.getD k ' '))))

/-- `isEmail()`. -/
def isEmail (v : InputValidator) : Option String × InputValidator :=
  match stringValue v with
  | none => (some inputTypeErrorMsg, v)
  | some s =>
    if emailRegexTest s then
      (none, validateCheck v "isEmail")
    else
      (none, addError v "isEmail" "Incorrect email address")

/-- `customCheck(fn, checkName, errorMessage)`.  The predicate result is
compared with `!== true`, and a falsy (empty) `errorMessage` falls back to
the default `` `${checkName} check failed` `` string. -/
def customCheck (v : InputValidator) (fn : String → JSValue)
    (checkName : String) (errorMessage : String) : Option String × InputValidator :=
  match stringValue v with
  | none => (some inputTypeErrorMsg, v)
  | some s =>
    if checkName = "" then
      (some missingCheckNameMsg, v)
    else if fn s ≠ JSValue.bool true then
      (none, addError v checkName
        (if errorMessage = "" then checkName ++ " check failed" else errorMessage))
    else
      (none, validateCheck v checkName)

/-- `Object.keys(this)` for an `InputValidator` instance: its own enumerable
properties, in definition order.  The methods live on the prototype and are
not own keys. -/
def objectKeysSelf : List String :=
  ["input", "validatorRules", "validatorHandlers", "validatorSettings", "errors"]

/-- Property names found on `Array.prototype` and `Object.prototype` (the
prototype chain of the array returned by `Object.keys`), as of ES2022. -/
def arrayProtoMemberNames : List String :=
  ["length", "constructor", "at", "concat", "copyWithin", "entries", "every",
   "fill", "filter", "find", "findIndex", "findLast", "findLastIndex", "flat",
   "flatMap", "forEach", "includes", "indexOf", "join", "keys", "lastIndexOf",
   "map", "pop", "push", "reduce", "reduceRight", "reverse", "shift", "slice",
   "some", "sort", "splice", "toLocaleString", "toString", "unshift", "values",
   "hasOwnProperty", "isPrototypeOf", "propertyIsEnumerable", "valueOf"]

/-- The JavaScript expression `name in arr` for an array of strings `arr`:
`in` tests property presence, so it is true exactly for the index keys
`"0"`, …, and the members of the array prototype chain — never for the
array's string elements. -/
def jsInArray (name : String) (arr : List String) : Bool :=
  ((List.range arr.length).map (fun i => toString i)).contains name ||
  arrayProtoMemberNames.contains name

/-- Enabledness test `if (!methodValue) return;` of `validate` for each key of
`validatorRules`: the `hasLength` entry is the configuration object, which is
always truthy; `isAlpha`/`isEmail` are their boolean flags. -/
def ruleEnabled (v : InputValidator) (name : String) : Bool :=
  if name = "hasLength" then true
  else if name = "isAlpha" then v.validatorRules.isAlpha
  else if name = "isEmail" then v.validatorRules.isEmail
  else false

/-- Dispatch `this[methodName as ValidatorRules]()`.  Inside `validate` the
guard has already ensured a string value, so none of the methods can throw
here and only the state component matters. -/
def runRule (v : InputValidator) (name : String) : InputValidator :=
  if name = "hasLength" then (hasLength v).2
  else if name = "isAlpha" then (isAlpha v).2
  else if name = "isEmail" then (isEmail v).2
  else v

/-- The keys of `validatorRules` in `Object.entries` order (insertion order of
the defaults object literal, preserved by the constructor's spread merge). -/
def ruleNames : List String := ["hasLength", "isAlpha", "isEmail"]

/-- Body of the `forEach` in `validate`: skip a falsy rule value, then run the
method only when `methodName in Object.keys(this)` holds. -/
def validateStep (v : InputValidator) (name : String) : InputValidator :=
  if ruleEnabled v name = false then v
  else if jsInArray name objectKeysSelf then runRule v name
  else v

/-- The assignment `this.input.dataset.isValid = …`. -/
def setDatasetIsValid (v : InputValidator) (s : String) : InputValidator :=
  match v.input with
  | none => v
  | some inp => { v with input := some { inp with datasetIsValid := some s } }

/-- `validate()`.  Returns the thrown message (if any), the state after the
call, and the list of argument lists passed to `onValidationFinish`, one per
invocation. -/
def validate (v : InputValidator) : Option String × InputValidator × List (List ErrorEntry) :=
  match stringValue v with
  | none => (some inputTypeErrorMsg, v, [])
  | some _ =>
    let v1 := ruleNames.foldl validateStep v
    let v2 := setDatasetIsValid v1 (if v1.errors.length ≠ 0 then "Invalid" else "Valid")
    (none, v2, [v2.errors])

end InputValidator

open InputValidator

/-! ## Helper lemmas and concrete instances -/

/-- Builder for a validator bound to an input holding the string `s`. -/
def mkValidator (s : String) (rules : IValidatorRules) (lang : Lang)
    (errs : List ErrorEntry) : InputValidator :=
  { input := some { value := some s }, validatorRules := rules
  , currentLanguage := lang, errors := errs }

theorem validateStep_hasLength_id (v : InputValidator) : validateStep v "hasLength" = v := by
  rfl

theorem validateStep_isAlpha_id (v : InputValidator) : validateStep v "isAlpha" = v := by
  unfold validateStep
  split
  · rfl
  · rfl

theorem validateStep_isEmail_id (v : InputValidator) : validateStep v "isEmail" = v := by
  unfold validateStep
  split
  · rfl
  · rfl

theorem setDatasetIsValid_errors (v : InputValidator) (s : String) :
    (setDatasetIsValid v s).errors = v.errors := by
  unfold setDatasetIsValid
  cases v.input <;> rfl

/-- `validate` leaves the error list untouched: the dispatch guard
`methodName in Object.keys(this)` never holds for a rule name. -/
theorem validate_state_errors (v : InputValidator) :
    (validate v).2.1.errors = v.errors := by
  unfold validate
  cases h : stringValue v with
  | none => rfl
  | some s =>
    simp only [ruleNames, List.foldl, validateStep_hasLength_id, validateStep_isAlpha_id,
      validateStep_isEmail_id, setDatasetIsValid_errors]

theorem hasLength_reduce (v : InputValidator) (s : String) (hs : stringValue v = some s) :
    hasLength v =
      (if s.length < v.validatorRules.hasLength.min then
        (none, addError v "hasLength"
          ((errorTextMessages.hasLength.min v.validatorRules.hasLength.min).pick v.currentLanguage))
      else if v.validatorRules.hasLength.max ≠ 0 ∧ s.length > v.validatorRules.hasLength.max then
        (none, addError v "hasLength"
          ("Should be no more than " ++ toString v.validatorRules.hasLength.max ++ " symbols"))
      else if v.validatorRules.hasLength.exact ≠ 0 ∧ s.length ≠ v.validatorRules.hasLength.exact then
        (none, addError v "hasLength"
          ("Should be exactly " ++ toString v.validatorRules.hasLength.exact ++ " symbols"))
      else
        (none, validateCheck v "hasLength")) := by
  unfold hasLength
  rw [hs]

theorem isAlpha_reduce (v : InputValidator) (s : String) (hs : stringValue v = some s) :
    isAlpha v =
      (if alphaRegexTest s then (none, validateCheck v "isAlpha")
       else (none, addError v "isAlpha" "Should contain only alphabetic letters")) := by
  unfold isAlpha
  rw [hs]

theorem isEmail_reduce (v : InputValidator) (s : String) (hs : stringValue v = some s) :
    isEmail v =
      (if emailRegexTest s then (none, validateCheck v "isEmail")
       else (none, addError v "isEmail" "Incorrect email address")) := by
  unfold isEmail
  rw [hs]

theorem customCheck_reduce (v : InputValidator) (s : String) (fn : String → JSValue)
    (checkName errorMessage : String) (hs : stringValue v = some s) :
    customCheck v fn checkName errorMessage =
      (if checkName = "" then (some missingCheckNameMsg, v)
       else if fn s ≠ JSValue.bool true then
         (none, addError v checkName
           (if errorMessage = "" then checkName ++ " check failed" else errorMessage))
       else (none, validateCheck v checkName)) := by
  unfold customCheck
  rw [hs]

/-! ## C1 -/

/-- C1: the claim fails on the code.  `validate()` runs no rule at all: the
dispatch guard `methodName in Object.keys(this)` tests property presence on an
array of field names, which is false for every rule name, so the error list is
never touched.  In particular a validator with `isEmail` enabled and the
invalid value `"a@@b"` comes out of `validate()` with an empty error list. -/
theorem validate_never_runs_rules :
    (∀ v : InputValidator, (validate v).2.1.errors = v.errors) ∧
    (validate (mkValidator "a@@b" { isEmail := true } Lang.EN [])).2.1.errors = [] ∧
    (validate (mkValidator "a@@b" { isEmail := true } Lang.EN [])).1 = none ∧
    jsInArray "hasLength" objectKeysSelf = false ∧
    jsInArray "isAlpha" objectKeysSelf = false ∧
    jsInArray "isEmail" objectKeysSelf = false :=
  ⟨validate_state_errors, by decide, rfl, by decide, by decide, by decide⟩

/-! ## C5 -/

/-- C5: running `validate()` twice with an unchanged value yields the same
error list as after the first run (trivially so, because `validate` never
modifies the error list). -/
theorem validate_idempotent (v : InputValidator) :
    (validate (validate v).2.1).2.1.errors = (validate v).2.1.errors := by
  simp [validate_state_errors]

/-! ## C6 -/

/-- C6: on a string-valued field, `validate()` does not throw and invokes
`onValidationFinish` exactly once, with the complete current error list. -/
theorem validate_callback_once_full_list (v : InputValidator) (s : String)
    (hs : stringValue v = some s) :
    (validate v).1 = none ∧ (validate v).2.2 = [(validate v).2.1.errors] := by
  unfold validate
  rw [hs]
  exact ⟨rfl, rfl⟩

theorem validate_callback_once_full_list_witness :
    stringValue (mkValidator "x" {} Lang.EN []) = some "x" ∧
    (validate (mkValidator "x" {} Lang.EN [])).1 = none ∧
    (validate (mkValidator "x" {} Lang.EN [])).2.2 =
      [(validate (mkValidator "x" {} Lang.EN [])).2.1.errors] :=
  ⟨rfl, (validate_callback_once_full_list (mkValidator "x" {} Lang.EN []) "x" rfl).1,
    (validate_callback_once_full_list (mkValidator "x" {} Lang.EN []) "x" rfl).2⟩

/-! ## C4 -/

/-- C4: with a missing input or a non-string value every check and `validate`
throw the usage error and return the state unchanged (so the error list is
unchanged); `customCheck` with an empty check name throws its own usage error
with the state unchanged. -/
theorem bad_input_throws_unchanged (v : InputValidator) (hs : stringValue v = none) :
    hasLength v = (some inputTypeErrorMsg, v) ∧
    isAlpha v = (some inputTypeErrorMsg, v) ∧
    isEmail v = (some inputTypeErrorMsg, v) ∧
    (∀ (fn : String → JSValue) (name msg : String),
      customCheck v fn name msg = (some inputTypeErrorMsg, v)) ∧
    validate v = (some inputTypeErrorMsg, v, []) ∧
    (∀ (w : InputValidator) (s : String) (fn : String → JSValue) (msg : String),
      stringValue w = some s → customCheck w fn "" msg = (some missingCheckNameMsg, w)) := by
  refine ⟨?_, ?_, ?_, ?_, ?_, ?_⟩
  · unfold hasLength; rw [hs]
  · unfold isAlpha; rw [hs]
  · unfold isEmail; rw [hs]
  · intro fn name msg; unfold customCheck; rw [hs]
  · unfold validate; rw [hs]
  · intro w s fn msg hw
    unfold customCheck
    rw [hw]
    rfl

def vNonString : InputValidator :=
  { input := some { value := none }, validatorRules := {}
  , currentLanguage := Lang.EN, errors := [] }

theorem bad_input_throws_unchanged_witness :
    stringValue vNonString = none ∧
    hasLength vNonString = (some inputTypeErrorMsg, vNonString) ∧
    customCheck (mkValidator "ok" {} Lang.EN []) (fun _ => JSValue.bool false) "" "m" =
      (some missingCheckNameMsg, mkValidator "ok" {} Lang.EN []) :=
  ⟨rfl, (bad_input_throws_unchanged vNonString rfl).1,
    (bad_input_throws_unchanged vNonString rfl).2.2.2.2.2
      (mkValidator "ok" {} Lang.EN []) "ok" (fun _ => JSValue.bool false) "m" rfl⟩

/-! ## C2 -/

def vDup : InputValidator :=
  mkValidator "" { hasLength := { min := 1 } } Lang.EN []

/-- C2 fails on the code: `_addError` pushes without removing the previous
entry, so two consecutive failing runs of `hasLength` leave two entries with
the same `checkName`. -/
theorem duplicate_error_entries_cex :
    ((hasLength (hasLength vDup).2).2.errors.map ErrorEntry.checkName =
      ["hasLength", "hasLength"]) ∧
    ¬ ((hasLength (hasLength vDup).2).2.errors.map ErrorEntry.checkName).Nodup := by
  constructor
  · decide
  · decide

/-- C2 amended: each run of a check either appends exactly one entry carrying
that check's name (without deduplicating, so repeated failing runs can
accumulate duplicates) or removes every entry with that name and touches no
other entry. -/
theorem check_run_appends_or_clears (v : InputValidator) (s : String)
    (hs : stringValue v = some s) :
    ((∃ m, (hasLength v).2.errors = v.errors ++ [⟨"hasLength", m⟩]) ∨
      (hasLength v).2.errors = v.errors.filter (fun e => e.checkName != "hasLength")) ∧
    ((∃ m, (isAlpha v).2.errors = v.errors ++ [⟨"isAlpha", m⟩]) ∨
      (isAlpha v).2.errors = v.errors.filter (fun e => e.checkName != "isAlpha")) ∧
    ((∃ m, (isEmail v).2.errors = v.errors ++ [⟨"isEmail", m⟩]) ∨
      (isEmail v).2.errors = v.errors.filter (fun e => e.checkName != "isEmail")) ∧
    (∀ (fn : String → JSValue) (name msg : String), name ≠ "" →
      ((∃ m, (customCheck v fn name msg).2.errors = v.errors ++ [⟨name, m⟩]) ∨
        (customCheck v fn name msg).2.errors =
          v.errors.filter (fun e => e.checkName != name))) := by
  refine ⟨?_, ?_, ?_, ?_⟩
  · rw [hasLength_reduce v s hs]
    split
    · exact Or.inl ⟨_, rfl⟩
    split
    · exact Or.inl ⟨_, rfl⟩
    split
    · exact Or.inl ⟨_, rfl⟩
    · exact Or.inr rfl
  · rw [isAlpha_reduce v s hs]
    split
    · exact Or.inr rfl
    · exact Or.inl ⟨_, rfl⟩
  · rw [isEmail_reduce v s hs]
    split
    · exact Or.inr rfl
    · exact Or.inl ⟨_, rfl⟩
  · intro fn name msg hname
    rw [customCheck_reduce v s fn name msg hs, if_neg hname]
    split
    · exact Or.inl ⟨_, rfl⟩
    · exact Or.inr rfl

theorem check_run_appends_or_clears_witness :
    stringValue (mkValidator "abc" { hasLength := { min := 5 } } Lang.EN []) = some "abc" ∧
    ((∃ m, (hasLength (mkValidator "abc" { hasLength := { min := 5 } } Lang.EN [])).2.errors =
        (mkValidator "abc" { hasLength := { min := 5 } } Lang.EN []).errors ++ [⟨"hasLength", m⟩]) ∨
      (hasLength (mkValidator "abc" { hasLength := { min := 5 } } Lang.EN [])).2.errors =
        (mkValidator "abc" { hasLength := { min := 5 } } Lang.EN []).errors.filter
          (fun e => e.checkName != "hasLength")) :=
  ⟨rfl,
    (check_run_appends_or_clears (mkValidator "abc" { hasLength := { min := 5 } } Lang.EN [])
      "abc" rfl).1⟩

/-! ## C3 -/

/-- C3: per run of `hasLength` at most one entry is recorded, with precedence
min, then (non-zero) max, then (non-zero) exact; from an empty error list a
value shorter than `min` yields exactly the localized "too short" entry. -/
theorem hasLength_precedence (v : InputValidator) (s : String)
    (hs : stringValue v = some s) :
    (s.length < v.validatorRules.hasLength.min →
      (hasLength v).2.errors = v.errors ++
        [⟨"hasLength",
          (errorTextMessages.hasLength.min v.validatorRules.hasLength.min).pick
            v.currentLanguage⟩]) ∧
    (¬ s.length < v.validatorRules.hasLength.min →
      v.validatorRules.hasLength.max ≠ 0 → s.length > v.validatorRules.hasLength.max →
      (hasLength v).2.errors = v.errors ++
        [⟨"hasLength",
          "Should be no more than " ++ toString v.validatorRules.hasLength.max ++ " symbols"⟩]) ∧
    (¬ s.length < v.validatorRules.hasLength.min →
      ¬ (v.validatorRules.hasLength.max ≠ 0 ∧ s.length > v.validatorRules.hasLength.max) →
      v.validatorRules.hasLength.exact ≠ 0 → s.length ≠ v.validatorRules.hasLength.exact →
      (hasLength v).2.errors = v.errors ++
        [⟨"hasLength",
          "Should be exactly " ++ toString v.validatorRules.hasLength.exact ++ " symbols"⟩]) ∧
    (hasLength v).2.errors.length ≤ v.errors.length + 1 ∧
    (v.errors = [] → s.length < v.validatorRules.hasLength.min →
      (hasLength v).2.errors =
        [⟨"hasLength",
          (errorTextMessages.hasLength.min v.validatorRules.hasLength.min).pick
            v.currentLanguage⟩]) := by
  rw [hasLength_reduce v s hs]
  refine ⟨?_, ?_, ?_, ?_, ?_⟩
  · intro h1
    rw [if_pos h1]
    rfl
  · intro h1 h2 h3
    rw [if_neg h1, if_pos ⟨h2, h3⟩]
    rfl
  · intro h1 h2 h3 h4
    rw [if_neg h1, if_neg h2, if_pos ⟨h3, h4⟩]
    rfl
  · split
    · simp [addError]
    split
    · simp [addError]
    split
    · simp [addError]
    · simp only [validateCheck]
      exact le_trans (List.length_filter_le _ _) (Nat.le_succ _)
  · intro h0 h1
    rw [if_pos h1, addError, h0]
    rfl

theorem hasLength_precedence_witness :
    stringValue (mkValidator "ab" { hasLength := { exact := 5, min := 3, max := 1 } } Lang.EN [])
      = some "ab" ∧
    (mkValidator "ab" { hasLength := { exact := 5, min := 3, max := 1 } } Lang.EN []).errors = [] ∧
    "ab".length < 3 ∧
    (hasLength (mkValidator "ab" { hasLength := { exact := 5, min := 3, max := 1 } } Lang.EN [])).2.errors =
      [⟨"hasLength", "Should be more than or equal to 3 symbols"⟩] :=
  ⟨rfl, rfl, by decide,
    (hasLength_precedence
      (mkValidator "ab" { hasLength := { exact := 5, min := 3, max := 1 } } Lang.EN [])
      "ab" rfl).2.2.2.2 rfl (by decide)⟩

/-! ## C7 -/

/-- C7: `isEmail` records the error exactly when the value fails the permissive
pattern (nonempty `[^\s@]` runs around one `@` and a later `.`); `"a@b.com"`
passes and `"a@@b"` fails, yielding zero and one entries from an empty list. -/
theorem isEmail_pattern (v : InputValidator) (s : String)
    (hs : stringValue v = some s) :
    (emailRegexTest s = false →
      (isEmail v).2.errors = v.errors ++ [⟨"isEmail", "Incorrect email address"⟩]) ∧
    (emailRegexTest s = true →
      (isEmail v).2.errors = v.errors.filter (fun e => e.checkName != "isEmail")) ∧
    (v.errors = [] →
      (isEmail v).2.errors.length = (if emailRegexTest s then 0 else 1)) ∧
    emailRegexTest "a@b.com" = true ∧
    emailRegexTest "a@@b" = false := by
  rw [isEmail_reduce v s hs]
  refine ⟨?_, ?_, ?_, by decide, by decide⟩
  · intro h
    rw [if_neg (by simp [h])]
    rfl
  · intro h
    rw [if_pos h]
    rfl
  · intro h0
    cases h : emailRegexTest s with
    | false => simp [addError, h0]
    | true => simp [validateCheck, h0]

theorem isEmail_pattern_witness :
    stringValue (mkValidator "a@@b" { isEmail := true } Lang.EN []) = some "a@@b" ∧
    (mkValidator "a@@b" { isEmail := true } Lang.EN []).errors = [] ∧
    (isEmail (mkValidator "a@@b" { isEmail := true } Lang.EN [])).2.errors.length = 1 ∧
    stringValue (mkValidator "a@b.com" { isEmail := true } Lang.EN []) = some "a@b.com" ∧
    (isEmail (mkValidator "a@b.com" { isEmail := true } Lang.EN [])).2.errors.length = 0 :=
  ⟨rfl, rfl,
    ((isEmail_pattern (mkValidator "a@@b" { isEmail := true } Lang.EN [])
      "a@@b" rfl).2.2.1 rfl).trans (by decide),
    rfl,
    ((isEmail_pattern (mkValidator "a@b.com" { isEmail := true } Lang.EN [])
      "a@b.com" rfl).2.2.1 rfl).trans (by decide)⟩

/-! ## C8 -/

/-- C8: `isAlpha` records the error exactly when some character of the value is
not a latin letter (the empty string passes); from an empty list the value
`"abc123"` yields exactly one entry named `isAlpha`. -/
theorem isAlpha_pattern (v : InputValidator) (s : String)
    (hs : stringValue v = some s) :
    (alphaRegexTest s = false →
      (isAlpha v).2.errors = v.errors ++
        [⟨"isAlpha", "Should contain only alphabetic letters"⟩]) ∧
    (alphaRegexTest s = true →
      (isAlpha v).2.errors = v.errors.filter (fun e => e.checkName != "isAlpha")) ∧
    (v.errors = [] → alphaRegexTest s = false →
      (isAlpha v).2.errors = [⟨"isAlpha", "Should contain only alphabetic letters"⟩]) ∧
    alphaRegexTest "abc123" = false ∧
    alphaRegexTest "" = true := by
  rw [isAlpha_reduce v s hs]
  refine ⟨?_, ?_, ?_, by decide, by decide⟩
  · intro h
    rw [if_neg (by simp [h])]
    rfl
  · intro h
    rw [if_pos h]
    rfl
  · intro h0 h
    rw [if_neg (by simp [h]), addError, h0]
    rfl

theorem isAlpha_pattern_witness :
    stringValue (mkValidator "abc123" { isAlpha := true } Lang.EN []) = some "abc123" ∧
    (mkValidator "abc123" { isAlpha := true } Lang.EN []).errors = [] ∧
    alphaRegexTest "abc123" = false ∧
    (isAlpha (mkValidator "abc123" { isAlpha := true } Lang.EN [])).2.errors =
      [⟨"isAlpha", "Should contain only alphabetic letters"⟩] :=
  ⟨rfl, rfl, by decide,
    (isAlpha_pattern (mkValidator "abc123" { isAlpha := true } Lang.EN [])
      "abc123" rfl).2.2.1 rfl (by decide)⟩

/-! ## C9 -/

/-- C9: `customCheck` with name `"unique"` and message `"taken"` appends exactly
that entry when the predicate returns anything other than the literal `true`;
a later run whose predicate returns `true` removes that entry and no other;
an empty message falls back to the default `check failed` string. -/
theorem customCheck_unique_taken (v : InputValidator) (s : String)
    (hs : stringValue v = some s)
    (hu : ∀ e ∈ v.errors, e.checkName ≠ "unique") :
    (∀ fn : String → JSValue, fn s ≠ JSValue.bool true →
      (customCheck v fn "unique" "taken").2.errors = v.errors ++ [⟨"unique", "taken"⟩]) ∧
    (∀ fn gn : String → JSValue, fn s ≠ JSValue.bool true → gn s = JSValue.bool true →
      (customCheck (customCheck v fn "unique" "taken").2 gn "unique" "taken").2.errors =
        v.errors) ∧
    (∀ (fn : String → JSValue) (name : String), name ≠ "" → fn s ≠ JSValue.bool true →
      (customCheck v fn name "").2.errors = v.errors ++ [⟨name, name ++ " check failed"⟩]) := by
  have hself : v.errors.filter (fun e => e.checkName != "unique") = v.errors :=
    List.filter_eq_self.mpr (fun e he => by simpa [bne_iff_ne] using hu e he)
  refine ⟨?_, ?_, ?_⟩
  · intro fn hfn
    rw [customCheck_reduce v s fn "unique" "taken" hs, if_neg (by decide), if_pos hfn]
    rfl
  · intro fn gn hfn hgn
    rw [customCheck_reduce v s fn "unique" "taken" hs, if_neg (by decide), if_pos hfn]
    have hs2 : stringValue (addError v "unique"
        (if ("taken" = "") then "unique" ++ " check failed" else "taken")) = some s := hs
    rw [customCheck_reduce _ s gn "unique" "taken" hs2, if_neg (by decide),
      if_neg (fun hne => hne hgn)]
    simp only [validateCheck, addError, List.filter_append, hself]
    simp
  · intro fn name hname hfn
    rw [customCheck_reduce v s fn name "" hs, if_neg hname, if_pos hfn]
    rfl

theorem customCheck_unique_taken_witness :
    stringValue (mkValidator "z" {} Lang.EN []) = some "z" ∧
    (∀ e ∈ (mkValidator "z" {} Lang.EN []).errors, e.checkName ≠ "unique") ∧
    (customCheck (mkValidator "z" {} Lang.EN []) (fun _ => JSValue.num 1)
      "unique" "taken").2.errors = [⟨"unique", "taken"⟩] ∧
    (customCheck (customCheck (mkValidator "z" {} Lang.EN []) (fun _ => JSValue.num 1)
      "unique" "taken").2 (fun _ => JSValue.bool true) "unique" "taken").2.errors = [] :=
  ⟨rfl, by decide,
    (customCheck_unique_taken (mkValidator "z" {} Lang.EN []) "z" rfl (by decide)).1
      (fun _ => JSValue.num 1) (by decide),
    (customCheck_unique_taken (mkValidator "z" {} Lang.EN []) "z" rfl (by decide)).2.1
      (fun _ => JSValue.num 1) (fun _ => JSValue.bool true) (by decide) rfl⟩

/-! ## C10 -/

/-- C10: a failing `min` check records the per-locale table message for the
current language, while failing `max`/`exact` checks record fixed English
strings that are identical for both languages; the table's `max`/`exact`
Russian entries differ from those fixed strings, so they are never the
recorded message. -/
theorem hasLength_locale_gap (v : InputValidator) (s : String)
    (hs : stringValue v = some s) :
    (∀ lang : Lang, ¬ s.length < v.validatorRules.hasLength.min →
      v.validatorRules.hasLength.max ≠ 0 → s.length > v.validatorRules.hasLength.max →
      (hasLength { v with currentLanguage := lang }).2.errors = v.errors ++
        [⟨"hasLength",
          "Should be no more than " ++ toString v.validatorRules.hasLength.max ++ " symbols"⟩]) ∧
    (∀ lang : Lang, ¬ s.length < v.validatorRules.hasLength.min →
      ¬ (v.validatorRules.hasLength.max ≠ 0 ∧ s.length > v.validatorRules.hasLength.max) →
      v.validatorRules.hasLength.exact ≠ 0 → s.length ≠ v.validatorRules.hasLength.exact →
      (hasLength { v with currentLanguage := lang }).2.errors = v.errors ++
        [⟨"hasLength",
          "Should be exactly " ++ toString v.validatorRules.hasLength.exact ++ " symbols"⟩]) ∧
    (∀ lang : Lang, s.length < v.validatorRules.hasLength.min →
      (hasLength { v with currentLanguage := lang }).2.errors = v.errors ++
        [⟨"hasLength",
          (errorTextMessages.hasLength.min v.validatorRules.hasLength.min).pick lang⟩]) ∧
    (errorTextMessages.hasLength.min 3).EN ≠ (errorTextMessages.hasLength.min 3).RU ∧
    (errorTextMessages.hasLength.max 3).RU ≠ "Should be no more than 3 symbols" ∧
    (errorTextMessages.hasLength.exact 3).RU ≠ "Should be exactly 3 symbols" := by
  refine ⟨?_, ?_, ?_, by decide, by decide, by decide⟩
  · intro lang h1 h2 h3
    have hs2 : stringValue { v with currentLanguage := lang } = some s := hs
    rw [hasLength_reduce _ s hs2, if_neg h1, if_pos ⟨h2, h3⟩]
    rfl
  · intro lang h1 h2 h3 h4
    have hs2 : stringValue { v with currentLanguage := lang } = some s := hs
    rw [hasLength_reduce _ s hs2, if_neg h1, if_neg h2, if_pos ⟨h3, h4⟩]
    rfl
  · intro lang h1
    have hs2 : stringValue { v with currentLanguage := lang } = some s := hs
    rw [hasLength_reduce _ s hs2, if_pos h1]
    rfl

theorem hasLength_locale_gap_witness :
    stringValue (mkValidator "abcd" { hasLength := { max := 3 } } Lang.RU []) = some "abcd" ∧
    (hasLength { mkValidator "abcd" { hasLength := { max := 3 } } Lang.RU [] with
        currentLanguage := Lang.EN }).2.errors =
      [⟨"hasLength", "Should be no more than 3 symbols"⟩] ∧
    (hasLength { mkValidator "abcd" { hasLength := { max := 3 } } Lang.RU [] with
        currentLanguage := Lang.RU }).2.errors =
      [⟨"hasLength", "Should be no more than 3 symbols"⟩] :=
  ⟨rfl,
    (hasLength_locale_gap (mkValidator "abcd" { hasLength := { max := 3 } } Lang.RU [])
      "abcd" rfl).1 Lang.EN (by decide) (by decide) (by decide),
    (hasLength_locale_gap (mkValidator "abcd" { hasLength := { max := 3 } } Lang.RU [])
      "abcd" rfl).1 Lang.RU (by decide) (by decide) (by decide)⟩
